import Mathlib

/-!
Verification of the rocker container runtime (a minimal Docker-like tool in
Rust) against its natural-language specification.  Each definition below is a
shallow embedding of a function of the Rust source (`src/`), keeping the
source's name where Lean allows it.  Machine integers are modelled as `Nat`
with explicit `% 2^64` where u64 overflow matters; fallible Rust functions
return `Except`/`Option`; randomness is modelled by passing the stream of
sampled values as an explicit argument; the sled key-value store is modelled
as an association list with first-match lookup.
-/

namespace Rocker

/-! ## Store model (sled database: an ordered map `String → String`).
`get` returns the first binding, `insert` overwrites, `remove` deletes. -/

abbrev Store := List (String × String)

def Store.get : Store → String → Option String
  | [], _ => none
  | (k, v) :: rest, key => if k = key then some v else Store.get rest key

def Store.remove : Store → String → Store
  | [], _ => []
  | (k, v) :: rest, key =>
    if k = key then Store.remove rest key else (k, v) :: Store.remove rest key

def Store.insert (s : Store) (k v : String) : Store :=
  (k, v) :: Store.remove s k

theorem Store.get_remove (s : Store) (k key : String) :
    Store.get (Store.remove s k) key = if key = k then none else Store.get s key := by
  induction s with
  | nil => simp [Store.remove, Store.get]
  | cons hd tl ih =>
    obtain ⟨a, b⟩ := hd
    by_cases hak : a = k
    · subst hak
      by_cases hkey : key = a
      · subst hkey; simp [Store.remove, Store.get, ih]
      · have hak2 : ¬ a = key := fun hh => hkey (Eq.symm hh)
        simp [Store.remove, Store.get, ih, hkey, hak2]
    · by_cases hakey : a = key
      · subst hakey
        have hkey : ¬ a = k := hak
        simp [Store.remove, Store.get, ih, hak, hkey]
      · simp [Store.remove, Store.get, ih, hak, hakey]

theorem Store.get_insert (s : Store) (k v key : String) :
    Store.get (Store.insert s k v) key = if key = k then some v else Store.get s key := by
  by_cases h : key = k
  · subst h; simp [Store.insert, Store.get]
  · have h2 : ¬ k = key := fun hh => h (Eq.symm hh)
    simp [Store.insert, Store.get, h, h2, Store.get_remove]

/-! ## db.rs — key construction helpers (`format!("{}/{}", PREFIX, key)`). -/

def downloaded_images_key (key : String) : String := "downloaded_images/" ++ key

def container_commands_key (key : String) : String := "container_commands/" ++ key

def container_image_hashes_key (key : String) : String := "container_image_hashes/" ++ key

def container_pids_key (key : String) : String := "container_pids/" ++ key

def used_ip_addresses_key (key : String) : String := "used_ip_addresses/" ++ key

def veth_ip_addresses_key (key : String) : String := "veth_ip_addresses/" ++ key

/-- Modelled from the spec: `image.rs` calls a `db::image_hash_key` helper that
is missing from `db.rs`; the spec's keyspace table gives its key as
`downloaded_images/<hash>` (value `<name>:<tag>`), matching
`downloaded_images_key`. -/
def image_hash_key (key : String) : String := "downloaded_images/" ++ key

/-! ## image.rs — `parse_image_name`.
Rust: `image_name.split(':')`, then match on the number of pieces; a piece
without `/` gets the `library/` name prefixed, a missing tag defaults to
`latest`, three or more pieces is the "too many colons" error.
`splitOnChar` embeds Rust's `str::split` on a single character
(every occurrence splits, empty pieces kept). -/

def splitOnChar (sep : Char) : List Char → List (List Char)
  | [] => [[]]
  | c :: rest =>
    if c = sep then
      [] :: splitOnChar sep rest
    else
      match splitOnChar sep rest with
      | [] => [[c]]
      | t :: ts => (c :: t) :: ts

def parse_image_name_core (cs : List Char) : Except String (List Char × List Char) :=
  match splitOnChar ':' cs with
  | [n] =>
    if '/' ∈ n then Except.ok (n, "latest".toList)
    else Except.ok ("library/".toList ++ n, "latest".toList)
  | [n, t] =>
    if '/' ∈ n then Except.ok (n, t)
    else Except.ok ("library/".toList ++ n, t)
  | _ => Except.error "too many colons"

def parse_image_name (image_name : String) : Except String (String × String) :=
  (parse_image_name_core image_name.toList).map (fun p => (p.1.asString, p.2.asString))

theorem splitOnChar_ne_nil (sep : Char) (l : List Char) : splitOnChar sep l ≠ [] := by
  cases l with
  | nil => simp [splitOnChar]
  | cons c rest =>
    unfold splitOnChar
    by_cases h : c = sep
    · simp [h]
    · simp only [h, if_false]
      cases splitOnChar sep rest <;> simp

theorem splitOnChar_of_not_mem (sep : Char) (l : List Char) (h : sep ∉ l) :
    splitOnChar sep l = [l] := by
  induction l with
  | nil => simp [splitOnChar]
  | cons c rest ih =>
    simp only [List.mem_cons, not_or] at h
    unfold splitOnChar
    rw [if_neg (fun hc => h.1 hc.symm), ih h.2]

theorem splitOnChar_append (sep : Char) (n t : List Char) (h : sep ∉ n) :
    splitOnChar sep (n ++ sep :: t) = n :: splitOnChar sep t := by
  induction n with
  | nil => simp [splitOnChar]
  | cons c rest ih =>
    simp only [List.mem_cons, not_or] at h
    have hne : ¬ c = sep := fun hc => h.1 (Eq.symm hc)
    simp only [List.cons_append]
    rw [splitOnChar, if_neg hne, ih h.2]

theorem splitOnChar_length (sep : Char) (l : List Char) :
    (splitOnChar sep l).length = l.count sep + 1 := by
  induction l with
  | nil => simp [splitOnChar]
  | cons c rest ih =>
    unfold splitOnChar
    by_cases h : c = sep
    · subst h
      simp [List.count_cons, ih]
    · simp only [h, if_false]
      cases hsp : splitOnChar sep rest with
      | nil => exact absurd hsp (splitOnChar_ne_nil sep rest)
      | cons x xs =>
        have := ih
        rw [hsp] at this
        simp only [List.length_cons] at this ⊢
        rw [List.count_cons]
        simp [h, this]

theorem mem_splitOnChar_not_mem (sep : Char) (l : List Char) :
    ∀ p ∈ splitOnChar sep l, sep ∉ p := by
  induction l with
  | nil => simp [splitOnChar]
  | cons c rest ih =>
    unfold splitOnChar
    by_cases h : c = sep
    · simp only [h, if_true]
      intro p hp
      rcases List.mem_cons.mp hp with h1 | h1
      · subst h1; simp
      · exact ih p h1
    · simp only [h, if_false]
      cases hsp : splitOnChar sep rest with
      | nil => exact absurd hsp (splitOnChar_ne_nil sep rest)
      | cons x xs =>
        intro p hp
        rcases List.mem_cons.mp hp with h1 | h1
        · subst h1
          simp only [List.mem_cons, not_or]
          refine ⟨fun hc => h hc.symm, ?_⟩
          exact ih x (hsp ▸ List.mem_cons_self x xs)
        · exact ih p (hsp ▸ List.mem_cons_of_mem x h1)

/-! ## image.rs — `download_image_if_needed` (the `ensure` operation).
The registry client is an external collaborator; it is modelled as a function
argument `registry : name → tag → Option Manifest` (`none` covers both a
failed fetch and a non-schema-v2 manifest, which the source turns into errors
before touching the store).  The blob downloads performed by `download_image`
are recorded in the `downloadedLayers` field of the result. -/

structure Manifest where
  configDigest : String
  layers : List String
deriving DecidableEq, Repr

/-- `digest[7..=18]`: the 12-byte slice of the config digest after the
`sha256:` algorithm prefix (Rust panics when the digest is shorter; digests
here are ASCII and long enough, so the total drop/take model agrees). -/
def image_hash_of (digest : String) : String :=
  ((digest.toList.drop 7).take 12).asString

structure EnsureResult where
  result : Except String (String × Manifest)
  store : Store
  downloadedLayers : List String
deriving Repr

def is_image_already_downloaded (db : Store) (image_hash : String) : Bool :=
  (Store.get db (image_hash_key image_hash)).isSome

def download_image_if_needed (image_name : String)
    (registry : String → String → Option Manifest) (db : Store) : EnsureResult :=
  match parse_image_name image_name with
  | Except.error e => ⟨Except.error e, db, []⟩
  | Except.ok (name, tag) =>
    match registry name tag with
    | none => ⟨Except.error "Image manifest type invalid", db, []⟩
    | some m =>
      let image_hash := image_hash_of m.configDigest
      if is_image_already_downloaded db image_hash then
        ⟨Except.ok (image_hash, m), db, []⟩
      else
        ⟨Except.ok (image_hash, m),
         Store.insert db (image_hash_key image_hash) (name ++ ":" ++ tag),
         m.layers⟩

/-! ## cgroup.rs — `parse_memory_limit`.
Rust: `Regex::new(r"(\d+)(.*)")`, `captures_iter` over the input, the loop
keeps the LAST match's groups (`bytes`, `unit`); an empty `bytes` (no match
at all) is the "Memory limit format invalid" error, an unrecognized suffix
the "Invalid memory unit" error; both surface as `InvalidMemoryLimit`.
`findCapturesAux` embeds the regex engine for this pattern: a match starts at
the next digit, group 1 is the maximal digit run, group 2 (`.*`, greedy, `.`
not matching a newline) runs to the next newline or the end, and iteration
resumes there.  The fuel is the input length, which bounds the number of
matches since every match consumes at least one character. -/

inductive MemLimit where
  | ok (n : Nat)
  | invalidFormat
  | invalidUnit
  | overflowAbort
deriving DecidableEq, Repr

/-- Both error forms surface as the spec's `InvalidMemoryLimit`;
`overflowAbort` models `bytes.parse::<u64>().unwrap()` aborting the process
when the digit run exceeds `u64::MAX`, which is not an error return. -/
def MemLimit.isInvalidMemoryLimit : MemLimit → Bool
  | invalidFormat => true
  | invalidUnit => true
  | _ => false

def findCapturesAux : Nat → List Char → List (List Char × List Char)
  | 0, _ => []
  | fuel + 1, cs =>
    match cs.dropWhile (fun c => !c.isDigit) with
    | [] => []
    | c :: tail =>
      let digits := (c :: tail).takeWhile Char.isDigit
      let after := (c :: tail).dropWhile Char.isDigit
      let unit := after.takeWhile (fun x => x ≠ '\n')
      let rest := after.dropWhile (fun x => x ≠ '\n')
      (digits, unit) :: findCapturesAux fuel rest

def findCaptures (cs : List Char) : List (List Char × List Char) :=
  findCapturesAux cs.length cs

/-- `bytes.parse::<u64>()` on an all-digit string. -/
def natOfDigits (cs : List Char) : Nat :=
  cs.foldl (fun n c => n * 10 + (c.toNat - 48)) 0

def unitMultiplier : String → Option Nat
  | "" => some 1
  | "K" | "KB" | "k" | "kb" => some 1000
  | "M" | "MB" | "m" | "mb" => some 1000000
  | "G" | "GB" | "g" | "gb" => some 1000000000
  | "T" | "TB" | "t" | "tb" => some 1000000000000
  | _ => none

/-- `bytes * (1eN as u64)` is u64 multiplication, hence the `% 2 ^ 64`
(release-profile wrapping; the claims stay below the modulus). -/
def parse_memory_limit (mem : String) : MemLimit :=
  match (findCaptures mem.toList).getLast? with
  | none => MemLimit.invalidFormat
  | some (digits, unit) =>
    if digits = [] then MemLimit.invalidFormat
    else
      let n := natOfDigits digits
      if 2 ^ 64 ≤ n then MemLimit.overflowAbort
      else
        match unitMultiplier unit.asString with
        | some mult => MemLimit.ok ((n * mult) % 2 ^ 64)
        | none => MemLimit.invalidUnit

/-! ## cgroup.rs — `build_properties`.
The D-Bus `Variant` payloads are modelled by `PropVal`.  `cpus` is an `f32`
in the source; it is modelled as an exact rational, and
`rustRoundF32AsU64` embeds `(cpus * 1000000.0).round() as u64`
(round half away from zero, then the saturating float-to-u64 cast, which
sends negatives to 0 and values at or above `2^64` to `u64::MAX`).
`pids` is an `i32`; `pids.unwrap() as u64` is the wrapping cast. -/

inductive PropVal where
  | pidList (pids : List Nat)
  | str (s : String)
  | boolean (b : Bool)
  | nat64 (n : Nat)
deriving DecidableEq, Repr

def rustRoundF32AsU64 (q : ℚ) : Nat :=
  if q < 0 then 0 else min (Int.toNat ⌊q + 1 / 2⌋) (2 ^ 64 - 1)

def i32AsU64 (p : Int) : Nat := (p % (2 ^ 64 : Int)).toNat

def build_properties (target_pid : Nat) (mem : Option String) (cpus : Option ℚ)
    (pids : Option Int) (container_id : String) :
    Option (List (String × PropVal)) :=
  let base := [("PIDs", PropVal.pidList [target_pid]),
               ("Description", PropVal.str ("rocker container: " ++ container_id))]
  let cpuProps : List (String × PropVal) :=
    match cpus with
    | none => []
    | some c => [("CPUAccounting", PropVal.boolean true),
                 ("CPUQuotaPerSecUSec", PropVal.nat64 (rustRoundF32AsU64 (c * 1000000)))]
  let pidsProps : List (String × PropVal) :=
    match pids with
    | none => []
    | some p => [("TasksAccounting", PropVal.boolean true),
                 ("TasksMax", PropVal.nat64 (i32AsU64 p))]
  match mem with
  | none => some (base ++ cpuProps ++ pidsProps)
  | some m =>
    match parse_memory_limit m with
    | MemLimit.ok n =>
      some (base ++ [("MemoryAccounting", PropVal.boolean true),
                     ("MemoryMax", PropVal.nat64 n)] ++ cpuProps ++ pidsProps)
    | _ => none

/-! ## network.rs — `create_ip_address`.
Randomness is the explicit stream `rands` of sampled byte pairs; the loop
consumes one pair per reroll and the function is `none` when the stream is
exhausted (the source loops unboundedly).  NOTE (faithful to the source): the
initial random sample is discarded — the line building `172.28.a.b` from it
is commented out and the first candidate is the hardcoded `172.28.190.151`;
on success the allocator also inserts the stray key `used_ip_addresses/abc`.
`used_ip_address_key` in the source resolves to the `used_ip_addresses/`
prefix of the spec's key table. -/

def ipString (a b : Nat) : String :=
  "172.28." ++ toString a ++ "." ++ toString b

def createIpLoop : List (Nat × Nat) → Store → String → Option (String × Store)
  | rands, db, cand =>
    match Store.get db (used_ip_addresses_key cand) with
    | some _ =>
      match rands with
      | [] => none
      | (a, b) :: rest => createIpLoop rest db (ipString a b)
    | none =>
      some (cand,
        Store.insert (Store.insert db (used_ip_addresses_key cand) "1")
          (used_ip_addresses_key "abc") "1")

def create_ip_address (rands : List (Nat × Nat)) (db : Store) : Option (String × Store) :=
  createIpLoop rands db "172.28.190.151"

/-! ## container.rs — `create_container_id`.
Six random bytes, hex-encoded to a 12-character id; candidates whose
`container_image_hashes/<id>` key exists in the store are rerolled.  The
random stream is the explicit list `rands` of 6-byte draws; `none` models an
exhausted stream (the source loops unboundedly). -/

def hexDigitChar (n : Nat) : Char :=
  (("0123456789abcdef".toList).getD n '0')

/-- `hex::encode`: each byte becomes two lowercase hex digits, high nibble
first. -/
def hexEncodeList : List Nat → List Char
  | [] => []
  | b :: rest => hexDigitChar (b / 16) :: hexDigitChar (b % 16) :: hexEncodeList rest

def hexEncode (bytes : List Nat) : String :=
  (hexEncodeList bytes).asString

def create_container_id : List (List Nat) → Store → Option String
  | [], _ => none
  | r :: rest, db =>
    let container_id := hexEncode r
    match Store.get db (container_image_hashes_key container_id) with
    | some _ => create_container_id rest db
    | none => some container_id

/-! ## container.rs — the store part of `run_container`'s teardown
(lines 101–118).  `db.remove(veth_ip_addresses_key ...)` is both the lookup
and the deletion: `sled::Db::remove` returns the previous value, and a `None`
result is turned into the "IP address not found" error.  On the successful
path the used-IP, command, image-hash and pid keys are deleted as well. -/

def run_teardown (db : Store) (container_id : String) : Except String Store :=
  let veth_key := veth_ip_addresses_key ("ns-veth-" ++ container_id.take 6)
  match Store.get db veth_key with
  | none => Except.error ("IP address not found for veth: ns-veth-" ++ container_id.take 6)
  | some ip_addr =>
    let db := Store.remove db veth_key
    let db := Store.remove db (used_ip_addresses_key ip_addr)
    let db := Store.remove db (container_commands_key container_id)
    let db := Store.remove db (container_image_hashes_key container_id)
    let db := Store.remove db (container_pids_key container_id)
    Except.ok db

/-! ## container.rs — `exec_command_in_container`, store-visible behaviour.
The function looks up `container_pids/<id>`; when the key is absent it prints
"container not found: <id>" and returns `Ok(())` (exit 0) without cloning any
process.  When the key is present the source joins the five namespaces and
double-forks; that OS-level path is summarised by the `clonedProcesses`
count (outer child plus grandchild) — the store is never written on either
path. -/

structure ExecResult where
  exitOk : Bool
  printed : Option String
  store : Store
  clonedProcesses : Nat
deriving DecidableEq, Repr

def exec_command_in_container (db : Store) (container_id : String) : ExecResult :=
  match Store.get db (container_pids_key container_id) with
  | none => ⟨true, some ("container not found: " ++ container_id), db, 0⟩
  | some _ => ⟨true, none, db, 2⟩

/-! ## General helper lemmas -/

theorem asString_append (l m : List Char) : (l ++ m).asString = l.asString ++ m.asString := by
  rw [← String.toList_inj]
  show (l ++ m).asString.data = ((l.asString ++ m.asString) : String).data
  rw [String.data_append]
  show (l ++ m).asString.toList = l.asString.toList ++ m.asString.toList
  rw [List.toList_asString, List.toList_asString, List.toList_asString]

theorem toList_append (s t : String) : (s ++ t).toList = s.toList ++ t.toList :=
  String.data_append s t

/-! ## Claim C1 — the IP allocator's first candidate -/

/-- Helper for C1 and C10: a successful `createIpLoop` run found its candidate
unused and performed exactly the two inserts of the source's `None` branch. -/
theorem createIpLoop_some (rands : List (Nat × Nat)) (db : Store) (cand ip : String)
    (db' : Store) (h : createIpLoop rands db cand = some (ip, db')) :
    Store.get db (used_ip_addresses_key ip) = none ∧
    db' = Store.insert (Store.insert db (used_ip_addresses_key ip) "1")
            (used_ip_addresses_key "abc") "1" := by
  induction rands generalizing cand with
  | nil =>
    rw [createIpLoop] at h
    cases hg : Store.get db (used_ip_addresses_key cand) with
    | none =>
      rw [hg] at h
      simp only [Option.some.injEq, Prod.mk.injEq] at h
      obtain ⟨h1, h2⟩ := h
      subst h1
      exact ⟨hg, h2.symm⟩
    | some v => rw [hg] at h; simp at h
  | cons p rest ih =>
    rw [createIpLoop] at h
    cases hg : Store.get db (used_ip_addresses_key cand) with
    | none =>
      rw [hg] at h
      simp only [Option.some.injEq, Prod.mk.injEq] at h
      obtain ⟨h1, h2⟩ := h
      subst h1
      exact ⟨hg, h2.symm⟩
    | some v =>
      rw [hg] at h
      exact ih (ipString p.1 p.2) h

/-- C1: the spec says every candidate is `172.28.a.b` built from two freshly
sampled random bytes.  The source instead hardcodes the first candidate
`172.28.190.151` (the line building the address from the sample is commented
out), so with an empty store and sampled bytes `(5, 7)` the allocator returns
`172.28.190.151`, not `172.28.5.7`: the code contradicts the spec's clear
intent. -/
theorem create_ip_address_hardcoded_first_candidate :
    create_ip_address [(5, 7)] [] =
      some ("172.28.190.151",
        [("used_ip_addresses/abc", "1"), ("used_ip_addresses/172.28.190.151", "1")]) ∧
    ipString 5 7 = "172.28.5.7" ∧ "172.28.190.151" ≠ ipString 5 7 := by
  refine ⟨rfl, rfl, ?_⟩
  decide

/-! ## Claim C10 — the stray `used_ip_addresses/abc` write -/

/-- C10: every successful allocation records `used_ip_addresses/<ip>` for the
returned address and also the stray `used_ip_addresses/abc` key, both with
value `"1"`, and modifies no other store key. -/
theorem create_ip_address_stray_abc_key (rands : List (Nat × Nat)) (db : Store)
    (ip : String) (db' : Store) (h : create_ip_address rands db = some (ip, db')) :
    ∀ k, Store.get db' k =
      if k = used_ip_addresses_key "abc" ∨ k = used_ip_addresses_key ip then some "1"
      else Store.get db k := by
  obtain ⟨-, hdb⟩ := createIpLoop_some rands db "172.28.190.151" ip db' h
  intro k
  subst hdb
  rw [Store.get_insert, Store.get_insert]
  by_cases h1 : k = used_ip_addresses_key "abc"
  · simp [h1]
  · by_cases h2 : k = used_ip_addresses_key ip
    · simp [h1, h2]
    · simp [h1, h2]

theorem create_ip_address_stray_abc_key_witness :
    create_ip_address [] [] =
      some ("172.28.190.151",
        [("used_ip_addresses/abc", "1"), ("used_ip_addresses/172.28.190.151", "1")]) ∧
    Store.get [("used_ip_addresses/abc", "1"), ("used_ip_addresses/172.28.190.151", "1")]
      "used_ip_addresses/abc" = some "1" := by
  refine ⟨rfl, ?_⟩
  have h := create_ip_address_stray_abc_key [] [] "172.28.190.151"
    [("used_ip_addresses/abc", "1"), ("used_ip_addresses/172.28.190.151", "1")]
    rfl "used_ip_addresses/abc"
  simpa [used_ip_addresses_key] using h

/-! ## Claim C7 — `exec` against an unknown container id -/

/-- C7: when `container_pids/<id>` is absent, `exec` prints
"container not found: <id>", returns success (exit 0), creates no process
and leaves the store unchanged. -/
theorem exec_unknown_container_noop (db : Store) (container_id : String)
    (h : Store.get db (container_pids_key container_id) = none) :
    exec_command_in_container db container_id =
      ⟨true, some ("container not found: " ++ container_id), db, 0⟩ := by
  unfold exec_command_in_container
  rw [h]

theorem exec_unknown_container_noop_witness :
    Store.get [("container_pids/aaaaaaaaaaaa", "17")] (container_pids_key "deadbeef0123") = none ∧
    exec_command_in_container [("container_pids/aaaaaaaaaaaa", "17")] "deadbeef0123" =
      ⟨true, some "container not found: deadbeef0123", [("container_pids/aaaaaaaaaaaa", "17")], 0⟩ :=
  ⟨rfl, exec_unknown_container_noop [("container_pids/aaaaaaaaaaaa", "17")] "deadbeef0123" rfl⟩

/-! ## Claim C8 — container id generation -/

def isLowerHexDigit (c : Char) : Bool := ("0123456789abcdef".toList).contains c

theorem hexDigitChar_lower_hex : ∀ n, n < 16 → isLowerHexDigit (hexDigitChar n) = true := by
  decide

theorem hexEncodeList_length (bytes : List Nat) :
    (hexEncodeList bytes).length = 2 * bytes.length := by
  induction bytes with
  | nil => rfl
  | cons b rest ih =>
    simp only [hexEncodeList, List.length_cons, ih]
    omega

theorem hexEncodeList_mem (bytes : List Nat) (c : Char) (h : c ∈ hexEncodeList bytes) :
    ∃ b ∈ bytes, c = hexDigitChar (b / 16) ∨ c = hexDigitChar (b % 16) := by
  induction bytes with
  | nil => simp [hexEncodeList] at h
  | cons b rest ih =>
    simp only [hexEncodeList, List.mem_cons] at h
    rcases h with h | h | h
    · exact ⟨b, List.mem_cons_self b rest, Or.inl h⟩
    · exact ⟨b, List.mem_cons_self b rest, Or.inr h⟩
    · obtain ⟨b', hb', hc⟩ := ih h
      exact ⟨b', List.mem_cons_of_mem b hb', hc⟩

/-- C8: a returned container id is twelve lowercase hex characters, it is the
hex encoding of one of the sampled 6-byte draws, and at the moment of return
the store holds no `container_image_hashes/<id>` entry for it. -/
theorem create_container_id_spec (rands : List (List Nat)) (db : Store) (id : String)
    (hlen : ∀ r ∈ rands, r.length = 6)
    (hbyte : ∀ r ∈ rands, ∀ b ∈ r, b < 256)
    (h : create_container_id rands db = some id) :
    id.length = 12 ∧ (∀ c ∈ id.toList, isLowerHexDigit c = true) ∧
    (∃ r ∈ rands, id = hexEncode r) ∧
    Store.get db (container_image_hashes_key id) = none := by
  induction rands with
  | nil => simp [create_container_id] at h
  | cons r rest ih =>
    rw [create_container_id] at h
    cases hg : Store.get db (container_image_hashes_key (hexEncode r)) with
    | some v =>
      rw [hg] at h
      obtain ⟨h1, h2, h3, h4⟩ := ih (fun x hx => hlen x (List.mem_cons_of_mem r hx))
        (fun x hx => hbyte x (List.mem_cons_of_mem r hx)) h
      obtain ⟨r', hr', hid⟩ := h3
      exact ⟨h1, h2, ⟨r', List.mem_cons_of_mem r hr', hid⟩, h4⟩
    | none =>
      rw [hg] at h
      simp only [Option.some.injEq] at h
      subst h
      refine ⟨?_, ?_, ⟨r, List.mem_cons_self r rest, rfl⟩, hg⟩
      · rw [hexEncode, List.length_asString, hexEncodeList_length,
          hlen r (List.mem_cons_self r rest)]
      · intro c hc
        rw [hexEncode, List.toList_asString] at hc
        obtain ⟨b, hb, hcb⟩ := hexEncodeList_mem r c hc
        have hb256 : b < 256 := hbyte r (List.mem_cons_self r rest) b hb
        rcases hcb with h1 | h1 <;> subst h1
        · exact hexDigitChar_lower_hex (b / 16) (Nat.div_lt_of_lt_mul hb256)
        · exact hexDigitChar_lower_hex (b % 16) (Nat.mod_lt b (by omega))

theorem create_container_id_spec_witness :
    create_container_id [[171, 205, 239, 1, 35, 69]] [] = some "abcdef012345" ∧
    "abcdef012345".length = 12 ∧
    Store.get [] (container_image_hashes_key "abcdef012345") = none := by
  have h := create_container_id_spec [[171, 205, 239, 1, 35, 69]] [] "abcdef012345"
    (by decide) (by decide) rfl
  exact ⟨rfl, h.1, h.2.2.2⟩

/-! ## Claim C3 — `run`'s teardown of the store -/

/-- C3: the teardown looks up (and removes) the
`veth_ip_addresses/ns-veth-<id6>` mapping, surfacing the `IpNotFound` error
when it is absent; on success the veth mapping, the used-IP entry for the
stored address and the command, image-hash and pid keys of the container are
all gone, and no other key changes. -/
theorem run_teardown_spec (db : Store) (container_id : String) :
    (Store.get db (veth_ip_addresses_key ("ns-veth-" ++ container_id.take 6)) = none →
      run_teardown db container_id =
        Except.error ("IP address not found for veth: ns-veth-" ++ container_id.take 6)) ∧
    (∀ ip db',
      Store.get db (veth_ip_addresses_key ("ns-veth-" ++ container_id.take 6)) = some ip →
      run_teardown db container_id = Except.ok db' →
      Store.get db' (veth_ip_addresses_key ("ns-veth-" ++ container_id.take 6)) = none ∧
      Store.get db' (used_ip_addresses_key ip) = none ∧
      Store.get db' (container_commands_key container_id) = none ∧
      Store.get db' (container_image_hashes_key container_id) = none ∧
      Store.get db' (container_pids_key container_id) = none ∧
      (∀ k, k ≠ veth_ip_addresses_key ("ns-veth-" ++ container_id.take 6) →
        k ≠ used_ip_addresses_key ip →
        k ≠ container_commands_key container_id →
        k ≠ container_image_hashes_key container_id →
        k ≠ container_pids_key container_id →
        Store.get db' k = Store.get db k)) := by
  constructor
  · intro hnone
    simp only [run_teardown, hnone]
  · intro ip db' hsome hok
    simp only [run_teardown, hsome, Except.ok.injEq] at hok
    subst hok
    refine ⟨?_, ?_, ?_, ?_, ?_, ?_⟩
    · simp [Store.get_remove]
    · simp [Store.get_remove]
    · simp [Store.get_remove]
    · simp [Store.get_remove]
    · simp [Store.get_remove]
    · intro k h1 h2 h3 h4 h5
      rw [Store.get_remove, if_neg h5, Store.get_remove, if_neg h4,
        Store.get_remove, if_neg h3, Store.get_remove, if_neg h2,
        Store.get_remove, if_neg h1]

theorem run_teardown_spec_witness :
    run_teardown
      [("veth_ip_addresses/ns-veth-abcdef", "172.28.9.9"),
       ("used_ip_addresses/172.28.9.9", "1"),
       ("container_commands/abcdef012345", "sh"),
       ("container_image_hashes/abcdef012345", "h12345678901"),
       ("container_pids/abcdef012345", "42")] "abcdef012345" = Except.ok [] ∧
    Store.get ([] : Store) (container_pids_key "abcdef012345") = none ∧
    run_teardown [] "abcdef012345" =
      Except.error "IP address not found for veth: ns-veth-abcdef" := by
  refine ⟨rfl, ?_, ?_⟩
  · have h := (run_teardown_spec
      [("veth_ip_addresses/ns-veth-abcdef", "172.28.9.9"),
       ("used_ip_addresses/172.28.9.9", "1"),
       ("container_commands/abcdef012345", "sh"),
       ("container_image_hashes/abcdef012345", "h12345678901"),
       ("container_pids/abcdef012345", "42")] "abcdef012345").2 "172.28.9.9" [] rfl rfl
    exact h.2.2.2.2.1
  · exact (run_teardown_spec [] "abcdef012345").1 rfl

/-! ## Claim C4 — `ensure` is idempotent on the image cache -/

/-- C4: when `downloaded_images/<hash>` is already present, `ensure` fetches
no layer blob, writes nothing to the store, and returns the `(hash,
manifest)` pair; in particular a second `ensure` right after a successful
first one downloads no layer. -/
theorem download_image_if_needed_cached (image_name : String)
    (registry : String → String → Option Manifest) (db : Store)
    (name tag : String) (m : Manifest)
    (hp : parse_image_name image_name = Except.ok (name, tag))
    (hr : registry name tag = some m)
    (hc : (Store.get db (image_hash_key (image_hash_of m.configDigest))).isSome = true) :
    download_image_if_needed image_name registry db =
      ⟨Except.ok (image_hash_of m.configDigest, m), db, []⟩ := by
  simp only [download_image_if_needed, hp, hr, is_image_already_downloaded, hc, if_true]

theorem download_image_if_needed_cached_witness :
    download_image_if_needed "ubuntu"
      (fun _ _ => some ⟨"sha256:0123456789abcdefghij", ["sha256:aaaabbbbccccdddd"]⟩)
      [("downloaded_images/0123456789ab", "library/ubuntu:latest")] =
      ⟨Except.ok ("0123456789ab", ⟨"sha256:0123456789abcdefghij", ["sha256:aaaabbbbccccdddd"]⟩),
       [("downloaded_images/0123456789ab", "library/ubuntu:latest")], []⟩ :=
  download_image_if_needed_cached "ubuntu"
    (fun _ _ => some ⟨"sha256:0123456789abcdefghij", ["sha256:aaaabbbbccccdddd"]⟩)
    [("downloaded_images/0123456789ab", "library/ubuntu:latest")]
    "library/ubuntu" "latest" ⟨"sha256:0123456789abcdefghij", ["sha256:aaaabbbbccccdddd"]⟩
    rfl rfl rfl

/-! ## Claims C5 and C9 — image-name resolution -/

theorem parse_image_name_one_token (n : List Char) (hn : ':' ∉ n) :
    parse_image_name n.asString =
      if '/' ∈ n then Except.ok (n.asString, "latest")
      else Except.ok ("library/" ++ n.asString, "latest") := by
  unfold parse_image_name parse_image_name_core
  rw [List.toList_asString, splitOnChar_of_not_mem ':' n hn]
  by_cases hd : '/' ∈ n
  · simp only [hd, if_true, Except.map, String.asString_toList]
  · simp only [hd, if_false, Except.map, asString_append, String.asString_toList]

theorem parse_image_name_two_tokens (n t : List Char) (hn : ':' ∉ n) (ht : ':' ∉ t) :
    parse_image_name (n.asString ++ ":" ++ t.asString) =
      if '/' ∈ n then Except.ok (n.asString, t.asString)
      else Except.ok ("library/" ++ n.asString, t.asString) := by
  have hlist : (n.asString ++ ":" ++ t.asString).toList = n ++ ':' :: t := by
    rw [toList_append, toList_append, List.toList_asString, List.toList_asString]
    simp
  unfold parse_image_name parse_image_name_core
  rw [hlist, splitOnChar_append ':' n t hn, splitOnChar_of_not_mem ':' t ht]
  by_cases hd : '/' ∈ n
  · simp only [hd, if_true, Except.map]
  · simp only [hd, if_false, Except.map, asString_append, String.asString_toList]

/-- C5: resolution splits on `:`; a single token keeps its name when it has a
slash and gains the `library/` name prefix otherwise, with tag `latest`; with
two tokens the same rule applies to the first and the second becomes the tag;
two or more colons give the "too many colons" error; and
`resolve("ubuntu") = ("library/ubuntu", "latest")`. -/
theorem parse_image_name_cases :
    (∀ n : List Char, ':' ∉ n → '/' ∈ n →
       parse_image_name n.asString = Except.ok (n.asString, "latest")) ∧
    (∀ n : List Char, ':' ∉ n → '/' ∉ n →
       parse_image_name n.asString = Except.ok ("library/" ++ n.asString, "latest")) ∧
    (∀ n t : List Char, ':' ∉ n → ':' ∉ t → '/' ∈ n →
       parse_image_name (n.asString ++ ":" ++ t.asString) =
         Except.ok (n.asString, t.asString)) ∧
    (∀ n t : List Char, ':' ∉ n → ':' ∉ t → '/' ∉ n →
       parse_image_name (n.asString ++ ":" ++ t.asString) =
         Except.ok ("library/" ++ n.asString, t.asString)) ∧
    (∀ s : String, 2 ≤ s.toList.count ':' →
       parse_image_name s = Except.error "too many colons") ∧
    parse_image_name "ubuntu" = Except.ok ("library/ubuntu", "latest") := by
  refine ⟨?_, ?_, ?_, ?_, ?_, rfl⟩
  · intro n hc hs; rw [parse_image_name_one_token n hc, if_pos hs]
  · intro n hc hs; rw [parse_image_name_one_token n hc, if_neg hs]
  · intro n t hcn hct hs; rw [parse_image_name_two_tokens n t hcn hct, if_pos hs]
  · intro n t hcn hct hs; rw [parse_image_name_two_tokens n t hcn hct, if_neg hs]
  · intro s hcount
    have hlen : 3 ≤ (splitOnChar ':' s.toList).length := by
      rw [splitOnChar_length]; omega
    unfold parse_image_name parse_image_name_core
    cases hsp : splitOnChar ':' s.toList with
    | nil => rw [hsp] at hlen; simp at hlen
    | cons a l1 =>
      cases l1 with
      | nil => rw [hsp] at hlen; simp at hlen
      | cons b l2 =>
        cases l2 with
        | nil => rw [hsp] at hlen; simp at hlen
        | cons c l3 => rfl

theorem parse_image_name_cases_witness :
    parse_image_name "library/alpine:3.18" = Except.ok ("library/alpine", "3.18") ∧
    parse_image_name "a:b:c" = Except.error "too many colons" := by
  constructor
  · have h := parse_image_name_cases.2.2.1 "library/alpine".toList "3.18".toList
      (by decide) (by decide) (by decide)
    simpa [String.asString_toList] using h
  · exact parse_image_name_cases.2.2.2.2.1 "a:b:c" (by decide)

/-- C9: re-resolving `<resolved name>:<resolved tag>` reproduces the first
resolution (the resolved name always contains a slash — either it had one or
it gained the `library/` name prefix — so the second pass keeps it
unchanged). -/
theorem resolve_idempotent (s name tag : String)
    (h : parse_image_name s = Except.ok (name, tag)) :
    parse_image_name (name ++ ":" ++ tag) = Except.ok (name, tag) := by
  unfold parse_image_name parse_image_name_core at h
  cases hsp : splitOnChar ':' s.toList with
  | nil => rw [hsp] at h; simp [Except.map] at h
  | cons a l1 =>
    have ha : ':' ∉ a :=
      mem_splitOnChar_not_mem ':' s.toList a (by rw [hsp]; exact List.mem_cons_self a l1)
    cases l1 with
    | nil =>
      rw [hsp] at h
      by_cases hd : '/' ∈ a
      · simp only [hd, if_true, Except.map, Except.ok.injEq, Prod.mk.injEq] at h
        obtain ⟨h1, h2⟩ := h
        subst h1; subst h2
        rw [parse_image_name_two_tokens a "latest".toList ha (by decide), if_pos hd]
      · simp only [hd, if_false, Except.map, Except.ok.injEq, Prod.mk.injEq] at h
        obtain ⟨h1, h2⟩ := h
        subst h1; subst h2
        rw [parse_image_name_two_tokens ("library/".toList ++ a) "latest".toList
          (fun hmem => (List.mem_append.mp hmem).elim (fun hm => absurd hm (by decide)) ha)
          (by decide),
          if_pos (List.mem_append.mpr (Or.inl (by decide)))]
    | cons b l2 =>
      have hb : ':' ∉ b :=
        mem_splitOnChar_not_mem ':' s.toList b
          (by rw [hsp]; exact List.mem_cons_of_mem a (List.mem_cons_self b l2))
      cases l2 with
      | nil =>
        rw [hsp] at h
        by_cases hd : '/' ∈ a
        · simp only [hd, if_true, Except.map, Except.ok.injEq, Prod.mk.injEq] at h
          obtain ⟨h1, h2⟩ := h
          subst h1; subst h2
          rw [parse_image_name_two_tokens a b ha hb, if_pos hd]
        · simp only [hd, if_false, Except.map, Except.ok.injEq, Prod.mk.injEq] at h
          obtain ⟨h1, h2⟩ := h
          subst h1; subst h2
          rw [parse_image_name_two_tokens ("library/".toList ++ a) b
            (fun hmem => (List.mem_append.mp hmem).elim (fun hm => absurd hm (by decide)) ha)
            hb,
            if_pos (List.mem_append.mpr (Or.inl (by decide)))]
      | cons c l3 =>
        rw [hsp] at h
        simp [Except.map] at h

theorem resolve_idempotent_witness :
    parse_image_name ("library/ubuntu" ++ ":" ++ "latest") =
      Except.ok ("library/ubuntu", "latest") :=
  resolve_idempotent "ubuntu" "library/ubuntu" "latest" rfl

/-! ## Claim C2 — the memory-limit parser -/

def recognizedUnits : List String :=
  ["", "K", "KB", "k", "kb", "M", "MB", "m", "mb", "G", "GB", "g", "gb", "T", "TB", "t", "tb"]

theorem takeWhile_append_all (p : Char → Bool) (l1 l2 : List Char)
    (h : ∀ a ∈ l1, p a = true) :
    (l1 ++ l2).takeWhile p = l1 ++ l2.takeWhile p := by
  induction l1 with
  | nil => simp
  | cons a l ih =>
    have hpa : p a = true := h a (List.mem_cons_self a l)
    simp only [List.cons_append, List.takeWhile, hpa, List.append_eq]
    rw [ih (fun x hx => h x (List.mem_cons_of_mem a hx))]

theorem dropWhile_append_all (p : Char → Bool) (l1 l2 : List Char)
    (h : ∀ a ∈ l1, p a = true) :
    (l1 ++ l2).dropWhile p = l2.dropWhile p := by
  induction l1 with
  | nil => simp
  | cons a l ih =>
    have hpa : p a = true := h a (List.mem_cons_self a l)
    simp only [List.cons_append, List.dropWhile, hpa, List.append_eq]
    exact ih (fun x hx => h x (List.mem_cons_of_mem a hx))

theorem dropWhile_nil_of_all (p : Char → Bool) (l : List Char)
    (h : ∀ a ∈ l, p a = true) : l.dropWhile p = [] := by
  have h2 := dropWhile_append_all p l [] h
  simpa using h2

theorem findCapturesAux_nil (fuel : Nat) : findCapturesAux fuel [] = [] := by
  cases fuel <;> rfl

/-- The single regex match on an input made of a nonempty digit run followed
by a digit-free, newline-free suffix: group 1 is the digits, group 2 the
suffix. -/
theorem findCaptures_digits_append (d u : List Char) (hd : d ≠ [])
    (hdig : ∀ c ∈ d, c.isDigit = true)
    (hu1 : u.takeWhile Char.isDigit = [])
    (hu2 : u.dropWhile Char.isDigit = u)
    (hu3 : u.takeWhile (fun x => x ≠ '\n') = u)
    (hu4 : u.dropWhile (fun x => x ≠ '\n') = []) :
    findCaptures (d ++ u) = [(d, u)] := by
  cases d with
  | nil => exact absurd rfl hd
  | cons c d2 =>
    have hc : c.isDigit = true := hdig c (List.mem_cons_self c d2)
    have hdig2 : ∀ x ∈ d2, x.isDigit = true := fun x hx => hdig x (List.mem_cons_of_mem c hx)
    show findCapturesAux ((d2 ++ u).length + 1) (c :: (d2 ++ u)) = [(c :: d2, u)]
    have hdrop : (c :: (d2 ++ u)).dropWhile (fun x => !x.isDigit) = c :: (d2 ++ u) := by
      simp [List.dropWhile, hc]
    have e1 : (c :: (d2 ++ u)).takeWhile Char.isDigit = c :: d2 := by
      simp only [List.takeWhile, hc]
      rw [takeWhile_append_all Char.isDigit d2 u hdig2, hu1, List.append_nil]
    have e2 : (c :: (d2 ++ u)).dropWhile Char.isDigit = u := by
      simp only [List.dropWhile, hc]
      rw [dropWhile_append_all Char.isDigit d2 u hdig2, hu2]
    simp only [findCapturesAux, hdrop, e1, e2, hu3, hu4, findCapturesAux_nil]

theorem findCaptures_no_digit (l : List Char) (h : ∀ c ∈ l, c.isDigit = false) :
    findCaptures l = [] := by
  have hdrop : l.dropWhile (fun x => !x.isDigit) = [] :=
    dropWhile_nil_of_all _ l (fun a ha => by rw [h a ha]; rfl)
  unfold findCaptures
  cases hL : l.length with
  | zero => rfl
  | succ k => simp only [findCapturesAux, hdrop]

theorem parse_memory_limit_eval (d : List Char) (u : String) (mult : Nat)
    (hd : d ≠ []) (hcap : findCaptures (d ++ u.toList) = [(d, u.toList)])
    (husm : unitMultiplier u = some mult)
    (hn : natOfDigits d < 2 ^ 64)
    (hbound : natOfDigits d * mult < 2 ^ 64) :
    parse_memory_limit (d.asString ++ u) = MemLimit.ok (natOfDigits d * mult) := by
  unfold parse_memory_limit
  rw [toList_append, List.toList_asString, hcap]
  rw [show [(d, u.toList)].getLast? = some (d, u.toList) from rfl]
  show (if d = [] then MemLimit.invalidFormat
    else if 2 ^ 64 ≤ natOfDigits d then MemLimit.overflowAbort
    else
      match unitMultiplier u.toList.asString with
      | some mult0 => MemLimit.ok ((natOfDigits d * mult0) % 2 ^ 64)
      | none => MemLimit.invalidUnit) = MemLimit.ok (natOfDigits d * mult)
  rw [if_neg hd, if_neg (not_le.mpr hn), String.asString_toList, husm]
  show MemLimit.ok ((natOfDigits d * mult) % 2 ^ 64) = MemLimit.ok (natOfDigits d * mult)
  rw [Nat.mod_eq_of_lt hbound]

/-- Every recognized unit is digit-free and newline-free, and its SI
multiplier is positive. -/
theorem unitMultiplier_props (u : String) (mult : Nat) (h : unitMultiplier u = some mult) :
    0 < mult ∧ u.toList.takeWhile Char.isDigit = [] ∧
    u.toList.dropWhile Char.isDigit = u.toList ∧
    u.toList.takeWhile (fun x => x ≠ '\n') = u.toList ∧
    u.toList.dropWhile (fun x => x ≠ '\n') = [] := by
  unfold unitMultiplier at h
  split at h <;> simp_all <;> subst_vars <;> omega

/-- C2 (amended): an input of the form `<digits><unit>` with a recognized
unit parses to `digits * multiplier` (through u64 arithmetic; the stated
bound keeps it exact), and an input containing no digit at all — such as
`""` or `"abc"` — is the `InvalidMemoryLimit` error; but because the regex
`(\d+)(.*)​` is unanchored, a string that merely CONTAINS a digit run parses
from that run instead of erroring (see the counterexample `"abc512M"`). -/
theorem parse_memory_limit_spec :
    (∀ (d : List Char) (u : String) (mult : Nat), d ≠ [] →
       (∀ c ∈ d, c.isDigit = true) →
       unitMultiplier u = some mult → natOfDigits d * mult < 2 ^ 64 →
       parse_memory_limit (d.asString ++ u) = MemLimit.ok (natOfDigits d * mult)) ∧
    (∀ m : String, (∀ c ∈ m.toList, c.isDigit = false) →
       parse_memory_limit m = MemLimit.invalidFormat) ∧
    parse_memory_limit "512M" = MemLimit.ok 512000000 ∧
    parse_memory_limit "0" = MemLimit.ok 0 ∧
    parse_memory_limit "" = MemLimit.invalidFormat ∧
    parse_memory_limit "abc" = MemLimit.invalidFormat := by
  refine ⟨?_, ?_, rfl, rfl, rfl, rfl⟩
  · intro d u mult hd hdig hmu hbound
    obtain ⟨hmult, hu1, hu2, hu3, hu4⟩ := unitMultiplier_props u mult hmu
    have hn : natOfDigits d < 2 ^ 64 :=
      lt_of_le_of_lt (Nat.le_mul_of_pos_right _ hmult) hbound
    exact parse_memory_limit_eval d u mult hd
      (findCaptures_digits_append d u.toList hd hdig hu1 hu2 hu3 hu4) hmu hn hbound
  · intro m hm
    unfold parse_memory_limit
    rw [findCaptures_no_digit m.toList hm]
    rfl

theorem parse_memory_limit_spec_witness :
    parse_memory_limit "2GB" = MemLimit.ok 2000000000 ∧
    parse_memory_limit "xyz" = MemLimit.invalidFormat := by
  constructor
  · have h := parse_memory_limit_spec.1 "2".toList "GB" 1000000000 (by decide) (by decide)
      rfl (by decide)
    have e : ("2".toList.asString ++ "GB" : String) = "2GB" := by
      rw [String.asString_toList]; rfl
    rw [e] at h
    rwa [show natOfDigits "2".toList = 2 from rfl] at h
  · exact parse_memory_limit_spec.2.1 "xyz" (by decide)

/-- C2 counterexample: `"abc512M"` is not of the `<digits><unit>` form, so
per the claim it should be the `InvalidMemoryLimit` error; the unanchored
regex instead matches the embedded `512M` and the parser returns
`512_000_000`. -/
theorem parse_memory_limit_unanchored :
    parse_memory_limit "abc512M" = MemLimit.ok 512000000 ∧
    MemLimit.isInvalidMemoryLimit (parse_memory_limit "abc512M") = false := by
  exact ⟨rfl, rfl⟩

/-! ## Claim C6 — the systemd property vector -/

/-- C6: a successful `build_properties` always contains `PIDs = [pid]` and
`Description = "rocker container: <id>"`; it contains
`MemoryAccounting = true` and `MemoryMax = parsed bytes` exactly when a
memory limit is supplied, `CPUAccounting = true` and
`CPUQuotaPerSecUSec = round(cpus * 1_000_000)` exactly when `cpus` is
supplied, and `TasksAccounting = true` and `TasksMax = pids as u64` exactly
when a pids limit is supplied. -/
theorem build_properties_spec (target_pid : Nat) (mem : Option String) (cpus : Option ℚ)
    (pids : Option Int) (container_id : String) (props : List (String × PropVal))
    (h : build_properties target_pid mem cpus pids container_id = some props) :
    ("PIDs", PropVal.pidList [target_pid]) ∈ props ∧
    ("Description", PropVal.str ("rocker container: " ++ container_id)) ∈ props ∧
    ((("MemoryAccounting", PropVal.boolean true) ∈ props) ↔ mem.isSome = true) ∧
    (∀ m n, mem = some m → parse_memory_limit m = MemLimit.ok n →
       ("MemoryMax", PropVal.nat64 n) ∈ props) ∧
    ((∃ v, ("MemoryMax", v) ∈ props) ↔ mem.isSome = true) ∧
    ((("CPUAccounting", PropVal.boolean true) ∈ props) ↔ cpus.isSome = true) ∧
    (∀ c, cpus = some c →
       ("CPUQuotaPerSecUSec", PropVal.nat64 (rustRoundF32AsU64 (c * 1000000))) ∈ props) ∧
    ((∃ v, ("CPUQuotaPerSecUSec", v) ∈ props) ↔ cpus.isSome = true) ∧
    ((("TasksAccounting", PropVal.boolean true) ∈ props) ↔ pids.isSome = true) ∧
    (∀ p, pids = some p → ("TasksMax", PropVal.nat64 (i32AsU64 p)) ∈ props) ∧
    ((∃ v, ("TasksMax", v) ∈ props) ↔ pids.isSome = true) := by
  rcases mem with - | m
  · rcases cpus with - | c <;> rcases pids with - | p <;>
      (simp only [build_properties, Option.some.injEq] at h; subst h; simp)
  · rcases hp : parse_memory_limit m with n | - | - | -
    · rcases cpus with - | c <;> rcases pids with - | p <;>
        (simp only [build_properties, hp, Option.some.injEq] at h; subst h; simp [hp];
         intro m1 n1 hm hp2; subst hm; rw [hp] at hp2; injection hp2 with h2;
         exact h2.symm)
    all_goals simp [build_properties, hp] at h

theorem build_properties_spec_witness :
    build_properties 4242 (some "1M") (some (1/2 : ℚ)) (some 100) "abc" =
      some [("PIDs", PropVal.pidList [4242]),
            ("Description", PropVal.str "rocker container: abc"),
            ("MemoryAccounting", PropVal.boolean true),
            ("MemoryMax", PropVal.nat64 1000000),
            ("CPUAccounting", PropVal.boolean true),
            ("CPUQuotaPerSecUSec", PropVal.nat64 500000),
            ("TasksAccounting", PropVal.boolean true),
            ("TasksMax", PropVal.nat64 100)] ∧
    ("PIDs", PropVal.pidList [4242]) ∈
      [("PIDs", PropVal.pidList [4242]),
       ("Description", PropVal.str "rocker container: abc"),
       ("MemoryAccounting", PropVal.boolean true),
       ("MemoryMax", PropVal.nat64 1000000),
       ("CPUAccounting", PropVal.boolean true),
       ("CPUQuotaPerSecUSec", PropVal.nat64 500000),
       ("TasksAccounting", PropVal.boolean true),
       ("TasksMax", PropVal.nat64 100)] := by
  have ecpu : rustRoundF32AsU64 ((1/2 : ℚ) * 1000000) = 500000 := by
    norm_num [rustRoundF32AsU64]
    rfl
  have e : build_properties 4242 (some "1M") (some (1/2 : ℚ)) (some 100) "abc" =
      some [("PIDs", PropVal.pidList [4242]),
            ("Description", PropVal.str "rocker container: abc"),
            ("MemoryAccounting", PropVal.boolean true),
            ("MemoryMax", PropVal.nat64 1000000),
            ("CPUAccounting", PropVal.boolean true),
            ("CPUQuotaPerSecUSec", PropVal.nat64 500000),
            ("TasksAccounting", PropVal.boolean true),
            ("TasksMax", PropVal.nat64 100)] := by
    simp only [build_properties, show parse_memory_limit "1M" = MemLimit.ok 1000000 from rfl,
      ecpu]
    rfl
  exact ⟨e, (build_properties_spec 4242 (some "1M") (some (1/2 : ℚ)) (some 100) "abc" _ e).1⟩

end Rocker
